import Mathlib

/-!
Shallow embedding of the autoregressive generation loop of
`src/candle-inf/base-inf.rs` (the candle-based inference script), together
with proofs of the behavioural properties claimed for it.

The external collaborators (model forward pass, repeat-penalty adjustment,
sampler, tokenizer decode) are parameters of the embedding: the loop only
sequences calls to them.  Logits are an abstract type `L`, the KV-cache an
abstract type `Γ`, the sampler (`LogitsProcessor`) state an abstract type
`S`, errors an abstract type `E`.  Machine floats (`f32`/`f64` sampling
parameters) are modelled as `ℚ`; the loop never computes with them, it only
compares `repeat_penalty` against the literal `1.0` and `temperature`
against `0.0`, which exact rational comparison models faithfully.

Every step of the loop is additionally recorded in a trace of `Event`s so
that "the penalty function is called with window w" and "the forward call is
fed chunk c at cursor p" are statable properties of a run.
-/

namespace CandleInf

/-- Line 25 of `base-inf.rs`: `const EOS_TOKEN: &str = "</s>";` -/
def EOS_TOKEN : String := "</s>"

/-- `pat starts with`-test on character lists: `strStarts pat s` is true iff
`pat` is an initial segment of `s`. Helper for Rust `str::contains`. -/
def strStarts : List Char → List Char → Bool
  | [], _ => true
  | _ :: _, [] => false
  | a :: as, b :: bs => a == b && strStarts as bs

/-- Substring search on character lists: does `pat` occur contiguously in
`s`?  Helper for Rust `str::contains`. -/
def strFind : List Char → List Char → Bool
  | pat, [] => strStarts pat []
  | pat, c :: cs => strStarts pat (c :: cs) || strFind pat cs

/-- Rust `text.contains(pat)`: substring containment on strings. -/
def strContains (s pat : String) : Bool := strFind pat.data s.data

/-- Line 268 of `base-inf.rs`: `text == EOS_TOKEN || text.contains(EOS_TOKEN)`. -/
def isEosText (text : String) : Bool :=
  text == EOS_TOKEN || strContains text EOS_TOKEN

/-- The sampling-relevant fields of the `Args` struct (`base-inf.rs`
lines 34-90): `num_tokens` (usize), `temperature` (f64), `top_p`
(Option f64), `top_k` (Option usize), `seed` (u64), `repeat_penalty` (f32),
`repeat_last_n` (usize).  The artifact-location / device / dtype fields play
no role in the generation loop and are omitted. -/
structure GenConfig where
  num_tokens : Nat
  temperature : ℚ
  top_p : Option ℚ
  top_k : Option Nat
  seed : Nat
  repeat_penalty : ℚ
  repeat_last_n : Nat
deriving DecidableEq, Repr

/-- `candle_transformers::generation::Sampling`, as used at lines 218-231. -/
inductive Sampling where
  | ArgMax : Sampling
  | All : (temperature : ℚ) → Sampling
  | TopK : (k : Nat) → (temperature : ℚ) → Sampling
  | TopP : (p : ℚ) → (temperature : ℚ) → Sampling
  | TopKThenTopP : (k : Nat) → (p : ℚ) → (temperature : ℚ) → Sampling
deriving DecidableEq, Repr

/-- Lines 218-231 of `base-inf.rs`: the sampling strategy chosen from
`temperature`, `top_k`, `top_p`:

    let sampling = if args.temperature <= 0. { Sampling::ArgMax } else {
      match (args.top_k, args.top_p) {
        (None, None) => Sampling::All { .. },
        (Some(k), None) => Sampling::TopK { .. },
        (None, Some(p)) => Sampling::TopP { .. },
        (Some(k), Some(p)) => Sampling::TopKThenTopP { .. }, } };
-/
def chooseSampling (cfg : GenConfig) : Sampling :=
  if cfg.temperature ≤ 0 then Sampling.ArgMax
  else
    match cfg.top_k, cfg.top_p with
    | none, none => Sampling.All cfg.temperature
    | some k, none => Sampling.TopK k cfg.temperature
    | none, some p => Sampling.TopP p cfg.temperature
    | some k, some p => Sampling.TopKThenTopP k p cfg.temperature

/-- The external collaborators consumed by the loop.

* `forward` models `llama.forward(&tokens_tensor, pos, &mut cache)?`
  together with the shape/dtype plumbing of lines 247-248
  (`squeeze(0)?.to_dtype(DType::F32)?`): it takes the current input chunk
  (the row of the `(1, n)` token tensor), the decode cursor `pos` and the
  cache state, and either fails or returns logits and the updated cache.
* `applyRepeatPenalty` models
  `candle_transformers::utils::apply_repeat_penalty(&logits, p, &window)?`
  (lines 255-259): a pure, fallible function of the logits, the penalty
  strength and the context window of token ids.
* `sample` models `logits_processor.sample(&logits)?` (line 263): fallible,
  threading the `LogitsProcessor` state (which owns the PRNG).
* `decode` models `tokenizer.decode(&[next_token], true).ok()` (line 267):
  a per-token pure map; `none` is a decode failure (the Rust code discards
  the error with `.ok()`). -/
structure Externals (L Γ S E : Type) where
  forward : List Nat → Nat → Γ → Except E (L × Γ)
  applyRepeatPenalty : L → ℚ → List Nat → Except E L
  sample : L → S → Except E (Nat × S)
  decode : Nat → Option String

/-- The mutable state of the loop (lines 214, 240-241 and 277-278):
`tokens_tensor` is the token row of the current input tensor, `cache` the
model KV-cache state, `sampler` the `LogitsProcessor` state, `pos` the
decode cursor, `generated_tokens` the statistics counter. -/
structure LoopState (Γ S : Type) where
  tokens_tensor : List Nat
  cache : Γ
  sampler : S
  pos : Nat
  generated_tokens : Nat
deriving DecidableEq, Repr

/-- Observable events of one run: each forward call with its chunk and
cursor, each repeat-penalty call with its strength and context window, each
sampled token, and each emitted text fragment (`print!("{}", text)`). -/
inductive Event where
  | forwardCall : (chunk : List Nat) → (pos : Nat) → Event
  | penaltyCall : (strength : ℚ) → (window : List Nat) → Event
  | sampled : (tok : Nat) → Event
  | emitted : (text : String) → Event
deriving DecidableEq, Repr

/-- Outcome of one loop iteration that did not error: continue with the
updated state, or break out of the loop on eos (lines 268-271) — in which
case `pos` and `tokens_tensor` are left as they were, since the `break`
precedes the updates of lines 277-278. -/
inductive StepNext (Γ S : Type) where
  | cont : LoopState Γ S → StepNext Γ S
  | stopEos : LoopState Γ S → StepNext Γ S
deriving DecidableEq, Repr

/-- The state carried by a `StepNext`. -/
def StepNext.state {Γ S : Type} : StepNext Γ S → LoopState Γ S
  | .cont st => st
  | .stopEos st => st

/-- Lines 251-260 of `base-inf.rs`: the repeat-penalty stage.

    let logits = if args.repeat_penalty == 1. { logits } else {
      let start_at = prompt_tokens.len().saturating_sub(args.repeat_last_n);
      candle_transformers::utils::apply_repeat_penalty(
        &logits, args.repeat_penalty, &prompt_tokens[start_at..])? };

`saturating_sub` is Nat subtraction; `&prompt_tokens[start_at..]` is
`List.drop start_at`.  Returns the penalty-call events of the stage
alongside the (fallible) adjusted logits. -/
def penaltyStage {L Γ S E : Type} (ext : Externals L Γ S E) (cfg : GenConfig)
    (prompt_tokens : List Nat) (logits : L) : List Event × Except E L :=
  if cfg.repeat_penalty == 1 then ([], Except.ok logits)
  else
    let start_at := prompt_tokens.length - cfg.repeat_last_n
    let window := prompt_tokens.drop start_at
    ([Event.penaltyCall cfg.repeat_penalty window],
      ext.applyRepeatPenalty logits cfg.repeat_penalty window)

/-- One iteration of the `for index in 0..args.num_tokens` loop body
(lines 243-284of `base-inf.rs`), as a function of the loop state:

1. forward pass (line 247, fallible, mutates the cache);
2. repeat-penalty stage (lines 251-260, see `penaltyStage`);
3. sampling (line 263, fallible, mutates the `LogitsProcessor` state) and
   `generated_tokens += 1` (line 264);
4. eos check / emission (lines 267-274): if the token decodes and the text
   equals or contains `EOS_TOKEN`, break (eos); if it decodes otherwise,
   emit the fragment; if decoding fails (`.ok()` yields `None`), fall
   through silently;
5. cursor/chunk update (lines 277-278): `pos += tokens_tensor.dim(1)?` and
   `tokens_tensor = [next_token]` — skipped on the eos break.

Returns the events of the iteration together with its outcome. -/
def genStep {L Γ S E : Type} (ext : Externals L Γ S E) (cfg : GenConfig)
    (prompt_tokens : List Nat) (st : LoopState Γ S) :
    List Event × Except E (StepNext Γ S) :=
  let fe := Event.forwardCall st.tokens_tensor st.pos
  match ext.forward st.tokens_tensor st.pos st.cache with
  | Except.error e => ([fe], Except.error e)
  | Except.ok (logits, cache) =>
    match penaltyStage ext cfg prompt_tokens logits with
    | (pevs, Except.error e) => (fe :: pevs, Except.error e)
    | (pevs, Except.ok logits) =>
      match ext.sample logits st.sampler with
      | Except.error e => (fe :: pevs, Except.error e)
      | Except.ok (next_token, sampler) =>
        let generated_tokens := st.generated_tokens + 1
        let evs := fe :: pevs ++ [Event.sampled next_token]
        match ext.decode next_token with
        | some text =>
          if isEosText text then
            (evs, Except.ok (StepNext.stopEos
              { st with cache := cache, sampler := sampler,
                        generated_tokens := generated_tokens }))
          else
            (evs ++ [Event.emitted text], Except.ok (StepNext.cont
              { tokens_tensor := [next_token], cache := cache,
                sampler := sampler,
                pos := st.pos + st.tokens_tensor.length,
                generated_tokens := generated_tokens }))
        | none =>
          (evs, Except.ok (StepNext.cont
            { tokens_tensor := [next_token], cache := cache,
              sampler := sampler,
              pos := st.pos + st.tokens_tensor.length,
              generated_tokens := generated_tokens }))

/-- Why the loop stopped: the `for` bound `args.num_tokens` was exhausted,
or the eos `break` of line 270 fired. -/
inductive StopReason where
  | maxTokens : StopReason
  | eos : StopReason
deriving DecidableEq, Repr

/-- The `for index in 0..args.num_tokens` loop (lines 243-285), with
`fuel` the number of remaining iterations (`args.num_tokens - index`).
Returns the accumulated event trace and either the error that aborted the
run (propagated by `?`, ending the whole run immediately) or the stop
reason and final state.  Fragments emitted before an abort remain in the
trace: they were already printed. -/
def genLoop {L Γ S E : Type} (ext : Externals L Γ S E) (cfg : GenConfig)
    (prompt_tokens : List Nat) :
    Nat → LoopState Γ S → List Event × Except E (StopReason × LoopState Γ S)
  | 0, st => ([], Except.ok (StopReason.maxTokens, st))
  | fuel + 1, st =>
    match genStep ext cfg prompt_tokens st with
    | (evs, Except.error e) => (evs, Except.error e)
    | (evs, Except.ok (StepNext.stopEos st')) =>
      (evs, Except.ok (StopReason.eos, st'))
    | (evs, Except.ok (StepNext.cont st')) =>
      let rest := genLoop ext cfg prompt_tokens fuel st'
      (evs ++ rest.1, rest.2)

/-- The state just before the loop (lines 214, 240-241): the token tensor
holds the full prompt, `generated_tokens = 0`, `pos = 0`. -/
def initState {Γ S : Type} (prompt_tokens : List Nat) (cache : Γ)
    (sampler : S) : LoopState Γ S :=
  { tokens_tensor := prompt_tokens, cache := cache, sampler := sampler,
    pos := 0, generated_tokens := 0 }

/-- Lines 214-285 end to end: build the `LogitsProcessor` once from the
seed and the chosen sampling strategy
(`LogitsProcessor::from_sampling(args.seed, sampling)`, line 232), then run
the generation loop from the initial state for `cfg.num_tokens`
iterations.  `fromSampling` is the external `LogitsProcessor` constructor. -/
def runGeneration {L Γ S E : Type} (ext : Externals L Γ S E)
    (fromSampling : Nat → Sampling → S) (cfg : GenConfig)
    (prompt_tokens : List Nat) (cache : Γ) :
    List Event × Except E (StopReason × LoopState Γ S) :=
  let logits_processor := fromSampling cfg.seed (chooseSampling cfg)
  genLoop ext cfg prompt_tokens cfg.num_tokens
    (initState prompt_tokens cache logits_processor)

/-- Iterating completed (non-breaking, non-erroring) loop iterations:
`afterSteps n` is the loop state after `n` iterations that each ran to the
bottom of the loop body, `none` as soon as an iteration errors or breaks. -/
def advance {L Γ S E : Type} (ext : Externals L Γ S E) (cfg : GenConfig)
    (prompt_tokens : List Nat) (st : LoopState Γ S) :
    Option (LoopState Γ S) :=
  match genStep ext cfg prompt_tokens st with
  | (_, Except.ok (StepNext.cont st')) => some st'
  | _ => none

/-- The loop state after `n` completed iterations from the initial state. -/
def afterSteps {L Γ S E : Type} (ext : Externals L Γ S E) (cfg : GenConfig)
    (prompt_tokens : List Nat) (cache : Γ) (sampler : S) :
    Nat → Option (LoopState Γ S)
  | 0 => some (initState prompt_tokens cache sampler)
  | n + 1 =>
    (afterSteps ext cfg prompt_tokens cache sampler n).bind
      (advance ext cfg prompt_tokens)

/-- The text fragments among a list of events, in order. -/
def emittedOf (evs : List Event) : List String :=
  evs.filterMap fun e =>
    match e with
    | Event.emitted t => some t
    | _ => none

end CandleInf

namespace CandleInf

/-- The state produced by a completed (continuing) iteration: next chunk is
the single sampled token, cursor advanced by the length of the chunk just
fed, `generated_tokens` bumped. -/
def contState {Γ S : Type} (st : LoopState Γ S) (t : Nat) (c : Γ) (s' : S) :
    LoopState Γ S :=
  { tokens_tensor := [t], cache := c, sampler := s',
    pos := st.pos + st.tokens_tensor.length,
    generated_tokens := st.generated_tokens + 1 }

/-- The state at the eos break: cache, sampler and `generated_tokens` were
already updated, cursor and chunk were not (the `break` precedes lines
277-278). -/
def eosState {Γ S : Type} (st : LoopState Γ S) (c : Γ) (s' : S) :
    LoopState Γ S :=
  { st with cache := c, sampler := s',
            generated_tokens := st.generated_tokens + 1 }

/-- Complete case analysis of one loop iteration: exactly one of the five
outcomes happens, and in each case the events and result of `genStep` are
given explicitly. -/
theorem genStep_spec {L Γ S E : Type} (ext : Externals L Γ S E)
    (cfg : GenConfig) (prompt : List Nat) (st : LoopState Γ S) :
    (∃ e, ext.forward st.tokens_tensor st.pos st.cache = Except.error e ∧
      genStep ext cfg prompt st =
        ([Event.forwardCall st.tokens_tensor st.pos], Except.error e)) ∨
    (∃ l c pevs pr, ext.forward st.tokens_tensor st.pos st.cache =
        Except.ok (l, c) ∧
      penaltyStage ext cfg prompt l = (pevs, pr) ∧
      ((∃ e, pr = Except.error e ∧
          genStep ext cfg prompt st =
            (Event.forwardCall st.tokens_tensor st.pos :: pevs,
             Except.error e)) ∨
       (∃ l', pr = Except.ok l' ∧
         ((∃ e, ext.sample l' st.sampler = Except.error e ∧
             genStep ext cfg prompt st =
               (Event.forwardCall st.tokens_tensor st.pos :: pevs,
                Except.error e)) ∨
          (∃ t s', ext.sample l' st.sampler = Except.ok (t, s') ∧
            ((ext.decode t = none ∧
               genStep ext cfg prompt st =
                 (Event.forwardCall st.tokens_tensor st.pos ::
                    pevs ++ [Event.sampled t],
                  Except.ok (StepNext.cont (contState st t c s')))) ∨
             (∃ text, ext.decode t = some text ∧ isEosText text = true ∧
               genStep ext cfg prompt st =
                 (Event.forwardCall st.tokens_tensor st.pos ::
                    pevs ++ [Event.sampled t],
                  Except.ok (StepNext.stopEos (eosState st c s')))) ∨
             (∃ text, ext.decode t = some text ∧ isEosText text = false ∧
               genStep ext cfg prompt st =
                 ((Event.forwardCall st.tokens_tensor st.pos ::
                     pevs ++ [Event.sampled t]) ++ [Event.emitted text],
                  Except.ok (StepNext.cont (contState st t c s')))))))))) := by
  cases hf : ext.forward st.tokens_tensor st.pos st.cache with
  | error e =>
    exact Or.inl ⟨e, rfl, by simp [genStep, hf]⟩
  | ok p =>
    obtain ⟨l, c⟩ := p
    refine Or.inr ?_
    rcases hps : penaltyStage ext cfg prompt l with ⟨pevs, pr⟩
    refine ⟨l, c, pevs, pr, rfl, hps, ?_⟩
    cases pr with
    | error e =>
      exact Or.inl ⟨e, rfl, by simp [genStep, hf, hps]⟩
    | ok l' =>
      refine Or.inr ⟨l', rfl, ?_⟩
      cases hs : ext.sample l' st.sampler with
      | error e =>
        exact Or.inl ⟨e, rfl, by simp [genStep, hf, hps, hs]⟩
      | ok q =>
        obtain ⟨t, s'⟩ := q
        refine Or.inr ⟨t, s', rfl, ?_⟩
        cases hd : ext.decode t with
        | none =>
          exact Or.inl ⟨rfl,
            by simp [genStep, hf, hps, hs, hd, contState]⟩
        | some text =>
          by_cases he : isEosText text = true
          · refine Or.inr (Or.inl ⟨text, rfl, he, ?_⟩)
            simp [genStep, hf, hps, hs, hd, he, eosState]
          · refine Or.inr (Or.inr ⟨text, rfl, by simpa using he, ?_⟩)
            simp [genStep, hf, hps, hs, hd, he, contState]

end CandleInf

namespace CandleInf

/-- The context window handed to the repeat-penalty function: the trailing
`repeat_last_n` tokens of the original prompt
(`&prompt_tokens[prompt_tokens.len().saturating_sub(args.repeat_last_n)..]`). -/
def penaltyWindow (cfg : GenConfig) (prompt : List Nat) : List Nat :=
  prompt.drop (prompt.length - cfg.repeat_last_n)

theorem penaltyWindow_length (cfg : GenConfig) (prompt : List Nat) :
    (penaltyWindow cfg prompt).length = min prompt.length cfg.repeat_last_n := by
  simp [penaltyWindow]
  omega

theorem penaltyWindow_suffix (cfg : GenConfig) (prompt : List Nat) :
    penaltyWindow cfg prompt <:+ prompt :=
  List.drop_suffix _ _

theorem penaltyStage_of_eq_one {L Γ S E : Type} (ext : Externals L Γ S E)
    {cfg : GenConfig} (prompt : List Nat) (l : L)
    (h : cfg.repeat_penalty = 1) :
    penaltyStage ext cfg prompt l = ([], Except.ok l) := by
  simp [penaltyStage, h]

theorem penaltyStage_of_ne_one {L Γ S E : Type} (ext : Externals L Γ S E)
    {cfg : GenConfig} (prompt : List Nat) (l : L)
    (h : cfg.repeat_penalty ≠ 1) :
    penaltyStage ext cfg prompt l =
      ([Event.penaltyCall cfg.repeat_penalty (penaltyWindow cfg prompt)],
       ext.applyRepeatPenalty l cfg.repeat_penalty
         (penaltyWindow cfg prompt)) := by
  simp [penaltyStage, penaltyWindow, h]

/-- The events of the penalty stage are penalty calls with the strength and
window of the configuration, and they occur only when the penalty is
enabled (`repeat_penalty ≠ 1.0`). -/
theorem penaltyStage_events {L Γ S E : Type} (ext : Externals L Γ S E)
    (cfg : GenConfig) (prompt : List Nat) (l : L) :
    (penaltyStage ext cfg prompt l).1 = [] ∨
    (cfg.repeat_penalty ≠ 1 ∧ (penaltyStage ext cfg prompt l).1 =
      [Event.penaltyCall cfg.repeat_penalty (penaltyWindow cfg prompt)]) := by
  rcases eq_or_ne cfg.repeat_penalty 1 with h | h
  · exact Or.inl (by rw [penaltyStage_of_eq_one ext prompt l h])
  · exact Or.inr ⟨h, by rw [penaltyStage_of_ne_one ext prompt l h]⟩

theorem emittedOf_nil : emittedOf [] = [] := rfl

theorem emittedOf_append (a b : List Event) :
    emittedOf (a ++ b) = emittedOf a ++ emittedOf b := by
  simp [emittedOf]

theorem emittedOf_cons_forward (c : List Nat) (p : Nat) (evs : List Event) :
    emittedOf (Event.forwardCall c p :: evs) = emittedOf evs := rfl

theorem emittedOf_cons_penalty (s : ℚ) (w : List Nat) (evs : List Event) :
    emittedOf (Event.penaltyCall s w :: evs) = emittedOf evs := rfl

theorem emittedOf_cons_sampled (t : Nat) (evs : List Event) :
    emittedOf (Event.sampled t :: evs) = emittedOf evs := rfl

theorem emittedOf_cons_emitted (t : String) (evs : List Event) :
    emittedOf (Event.emitted t :: evs) = t :: emittedOf evs := rfl

theorem emittedOf_penaltyStage {L Γ S E : Type} (ext : Externals L Γ S E)
    (cfg : GenConfig) (prompt : List Nat) (l : L) :
    emittedOf (penaltyStage ext cfg prompt l).1 = [] := by
  rcases penaltyStage_events ext cfg prompt l with h | ⟨_, h⟩ <;>
    simp [h, emittedOf]

/-- A continuing iteration produces exactly the `contState` of its sampled
token: next chunk `[t]`, cursor advanced by the chunk just fed. -/
theorem genStep_cont_state {L Γ S E : Type} {ext : Externals L Γ S E}
    {cfg : GenConfig} {prompt : List Nat} {st st' : LoopState Γ S}
    {evs : List Event}
    (h : genStep ext cfg prompt st =
      (evs, Except.ok (StepNext.cont st'))) :
    ∃ t c s', st' = contState st t c s' ∧ Event.sampled t ∈ evs := by
  cases hf : ext.forward st.tokens_tensor st.pos st.cache with
  | error e => simp [genStep, hf] at h
  | ok p =>
    obtain ⟨l, c⟩ := p
    rcases hps : penaltyStage ext cfg prompt l with ⟨pevs, pr⟩
    cases pr with
    | error e => simp [genStep, hf, hps] at h
    | ok l' =>
      cases hs : ext.sample l' st.sampler with
      | error e => simp [genStep, hf, hps, hs] at h
      | ok q =>
        obtain ⟨t, s'⟩ := q
        cases hd : ext.decode t with
        | none =>
          simp only [genStep, hf, hps, hs, hd, Prod.mk.injEq,
            Except.ok.injEq, StepNext.cont.injEq] at h
          exact ⟨t, c, s', h.2.symm, by rw [← h.1]; simp⟩
        | some text =>
          by_cases he : isEosText text = true
          · simp [genStep, hf, hps, hs, hd, he] at h
          · simp only [genStep, hf, hps, hs, hd, he, if_false,
              Bool.false_eq_true, if_neg, Prod.mk.injEq,
              Except.ok.injEq, StepNext.cont.injEq] at h
            exact ⟨t, c, s', h.2.symm, by rw [← h.1]; simp⟩

/-- An eos-breaking iteration leaves cursor and chunk untouched, emits
nothing, and its sampled token decodes to text that equals or contains the
eos marker. -/
theorem genStep_stopEos_state {L Γ S E : Type} {ext : Externals L Γ S E}
    {cfg : GenConfig} {prompt : List Nat} {st st' : LoopState Γ S}
    {evs : List Event}
    (h : genStep ext cfg prompt st =
      (evs, Except.ok (StepNext.stopEos st'))) :
    (∃ c s', st' = eosState st c s') ∧ emittedOf evs = [] ∧
    ∃ t text, Event.sampled t ∈ evs ∧ ext.decode t = some text ∧
      isEosText text = true := by
  cases hf : ext.forward st.tokens_tensor st.pos st.cache with
  | error e => simp [genStep, hf] at h
  | ok p =>
    obtain ⟨l, c⟩ := p
    rcases hps : penaltyStage ext cfg prompt l with ⟨pevs, pr⟩
    cases pr with
    | error e => simp [genStep, hf, hps] at h
    | ok l' =>
      cases hs : ext.sample l' st.sampler with
      | error e => simp [genStep, hf, hps, hs] at h
      | ok q =>
        obtain ⟨t, s'⟩ := q
        cases hd : ext.decode t with
        | none => simp [genStep, hf, hps, hs, hd] at h
        | some text =>
          by_cases he : isEosText text = true
          · simp only [genStep, hf, hps, hs, hd, he, if_pos,
              Prod.mk.injEq, Except.ok.injEq, StepNext.stopEos.injEq] at h
            refine ⟨⟨c, s', h.2.symm⟩, ?_, t, text, ?_, hd, he⟩
            · rw [← h.1]
              have hpe := emittedOf_penaltyStage ext cfg prompt l
              rw [hps] at hpe
              simp [emittedOf] at hpe ⊢
              exact hpe
            · rw [← h.1]; simp
          · simp [genStep, hf, hps, hs, hd, he] at h

/-- A forward-pass failure makes the iteration fail with that very error:
nothing is sampled, nothing is emitted. -/
theorem genStep_forward_error {L Γ S E : Type} (ext : Externals L Γ S E)
    (cfg : GenConfig) (prompt : List Nat) (st : LoopState Γ S) (e : E)
    (hf : ext.forward st.tokens_tensor st.pos st.cache = Except.error e) :
    genStep ext cfg prompt st =
      ([Event.forwardCall st.tokens_tensor st.pos], Except.error e) := by
  simp [genStep, hf]

/-- A sampling failure makes the iteration fail with that very error:
nothing is emitted. -/
theorem genStep_sample_error {L Γ S E : Type} (ext : Externals L Γ S E)
    (cfg : GenConfig) (prompt : List Nat) (st : LoopState Γ S)
    (l l' : L) (c : Γ) (pevs : List Event) (e : E)
    (hf : ext.forward st.tokens_tensor st.pos st.cache = Except.ok (l, c))
    (hps : penaltyStage ext cfg prompt l = (pevs, Except.ok l'))
    (hs : ext.sample l' st.sampler = Except.error e) :
    genStep ext cfg prompt st =
      (Event.forwardCall st.tokens_tensor st.pos :: pevs,
       Except.error e) := by
  simp [genStep, hf, hps, hs]

/-- Loop-unfolding equation: an erroring iteration aborts the whole loop at
once with that error; no further iterations run. -/
theorem genLoop_succ_error {L Γ S E : Type} {ext : Externals L Γ S E}
    {cfg : GenConfig} {prompt : List Nat} {st : LoopState Γ S}
    {evs : List Event} {e : E} (fuel : Nat)
    (h : genStep ext cfg prompt st = (evs, Except.error e)) :
    genLoop ext cfg prompt (fuel + 1) st = (evs, Except.error e) := by
  simp [genLoop, h]

/-- Loop-unfolding equation: an eos break ends the loop with reason eos. -/
theorem genLoop_succ_eos {L Γ S E : Type} {ext : Externals L Γ S E}
    {cfg : GenConfig} {prompt : List Nat} {st st' : LoopState Γ S}
    {evs : List Event} (fuel : Nat)
    (h : genStep ext cfg prompt st =
      (evs, Except.ok (StepNext.stopEos st'))) :
    genLoop ext cfg prompt (fuel + 1) st =
      (evs, Except.ok (StopReason.eos, st')) := by
  simp [genLoop, h]

/-- Loop-unfolding equation: a continuing iteration contributes its events
in front of the rest of the run — fragments already emitted are part of the
output whatever happens later. -/
theorem genLoop_succ_cont {L Γ S E : Type} {ext : Externals L Γ S E}
    {cfg : GenConfig} {prompt : List Nat} {st st' : LoopState Γ S}
    {evs : List Event} (fuel : Nat)
    (h : genStep ext cfg prompt st = (evs, Except.ok (StepNext.cont st'))) :
    genLoop ext cfg prompt (fuel + 1) st =
      (evs ++ (genLoop ext cfg prompt fuel st').1,
       (genLoop ext cfg prompt fuel st').2) := by
  simp [genLoop, h]

/-- Every penalty call recorded in one iteration carries the configured
strength and the prompt-tail window, and happens only with the penalty
enabled. -/
theorem genStep_penaltyCalls {L Γ S E : Type} {ext : Externals L Γ S E}
    {cfg : GenConfig} {prompt : List Nat} {st : LoopState Γ S}
    {evs : List Event} {r : Except E (StepNext Γ S)}
    (h : genStep ext cfg prompt st = (evs, r)) :
    ∀ s w, Event.penaltyCall s w ∈ evs →
      s = cfg.repeat_penalty ∧ w = penaltyWindow cfg prompt ∧
      cfg.repeat_penalty ≠ 1 := by
  intro s w hmem
  cases hf : ext.forward st.tokens_tensor st.pos st.cache with
  | error e =>
    rw [genStep_forward_error ext cfg prompt st e hf] at h
    injection h with h1 h2
    subst h1
    simp at hmem
  | ok p =>
    obtain ⟨l, c⟩ := p
    rcases hps : penaltyStage ext cfg prompt l with ⟨pevs, pr⟩
    have hwin : Event.penaltyCall s w ∈ pevs →
        s = cfg.repeat_penalty ∧ w = penaltyWindow cfg prompt ∧
        cfg.repeat_penalty ≠ 1 := by
      intro hm
      rcases penaltyStage_events ext cfg prompt l with hp | ⟨hne, hp⟩ <;>
        rw [hps] at hp <;> simp only [Prod.fst] at hp
      · simp [hp] at hm
      · rw [hp] at hm
        simp at hm
        exact ⟨hm.1, hm.2, hne⟩
    cases pr with
    | error e =>
      simp only [genStep, hf, hps] at h
      injection h with h1 h2
      subst h1
      simp at hmem
      exact hwin hmem
    | ok l' =>
      cases hs : ext.sample l' st.sampler with
      | error e =>
        simp only [genStep, hf, hps, hs] at h
        injection h with h1 h2
        subst h1
        simp at hmem
        exact hwin hmem
      | ok q =>
        obtain ⟨t, s'⟩ := q
        cases hd : ext.decode t with
        | none =>
          simp only [genStep, hf, hps, hs, hd] at h
          injection h with h1 h2
          subst h1
          simp at hmem
          exact hwin hmem
        | some text =>
          by_cases he : isEosText text = true
          · simp only [genStep, hf, hps, hs, hd, he, if_pos] at h
            injection h with h1 h2
            subst h1
            simp at hmem
            exact hwin hmem
          · simp only [genStep, hf, hps, hs, hd, he, Bool.false_eq_true,
              if_false] at h
            injection h with h1 h2
            subst h1
            simp at hmem
            exact hwin hmem

/-- When the penalty is enabled and the forward pass succeeds, the
iteration does call the penalty function, with the configured strength and
the prompt-tail window. -/
theorem genStep_penalty_called {L Γ S E : Type} {ext : Externals L Γ S E}
    {cfg : GenConfig} {prompt : List Nat} {st : LoopState Γ S}
    (hne : cfg.repeat_penalty ≠ 1) (l : L) (c : Γ)
    (hf : ext.forward st.tokens_tensor st.pos st.cache = Except.ok (l, c)) :
    Event.penaltyCall cfg.repeat_penalty (penaltyWindow cfg prompt) ∈
      (genStep ext cfg prompt st).1 := by
  have hps := penaltyStage_of_ne_one ext prompt l hne
  cases hap : ext.applyRepeatPenalty l cfg.repeat_penalty
      (penaltyWindow cfg prompt) with
  | error e => simp [genStep, hf, hps, hap]
  | ok l' =>
    cases hs : ext.sample l' st.sampler with
    | error e => simp [genStep, hf, hps, hap, hs]
    | ok q =>
      obtain ⟨t, s'⟩ := q
      cases hd : ext.decode t with
      | none => simp [genStep, hf, hps, hap, hs, hd]
      | some text =>
        by_cases he : isEosText text = true <;>
          simp [genStep, hf, hps, hap, hs, hd, he]

/-- One iteration emits at most one text fragment. -/
theorem genStep_emitted_len_le {L Γ S E : Type} {ext : Externals L Γ S E}
    {cfg : GenConfig} {prompt : List Nat} {st : LoopState Γ S}
    {evs : List Event} {r : Except E (StepNext Γ S)}
    (h : genStep ext cfg prompt st = (evs, r)) :
    (emittedOf evs).length ≤ 1 := by
  cases hf : ext.forward st.tokens_tensor st.pos st.cache with
  | error e =>
    rw [genStep_forward_error ext cfg prompt st e hf] at h
    injection h with h1 h2
    subst h1
    simp [emittedOf]
  | ok p =>
    obtain ⟨l, c⟩ := p
    rcases hps : penaltyStage ext cfg prompt l with ⟨pevs, pr⟩
    have hpe := emittedOf_penaltyStage ext cfg prompt l
    rw [hps] at hpe
    simp only [Prod.fst] at hpe
    cases pr with
    | error e =>
      simp only [genStep, hf, hps] at h
      injection h with h1 h2
      subst h1
      simp [emittedOf_cons_forward, emittedOf_cons_sampled,
        emittedOf_cons_emitted, emittedOf_append, emittedOf_nil, hpe]
    | ok l' =>
      cases hs : ext.sample l' st.sampler with
      | error e =>
        simp only [genStep, hf, hps, hs] at h
        injection h with h1 h2
        subst h1
        simp [emittedOf_cons_forward, emittedOf_cons_sampled,
          emittedOf_cons_emitted, emittedOf_append, emittedOf_nil, hpe]
      | ok q =>
        obtain ⟨t, s'⟩ := q
        cases hd : ext.decode t with
        | none =>
          simp only [genStep, hf, hps, hs, hd] at h
          injection h with h1 h2
          subst h1
          simp [emittedOf_cons_forward, emittedOf_cons_sampled,
            emittedOf_cons_emitted, emittedOf_append, emittedOf_nil, hpe]
        | some text =>
          by_cases he : isEosText text = true
          · simp only [genStep, hf, hps, hs, hd, he, if_pos] at h
            injection h with h1 h2
            subst h1
            simp [emittedOf_cons_forward, emittedOf_cons_sampled,
              emittedOf_cons_emitted, emittedOf_append, emittedOf_nil, hpe]
          · simp only [genStep, hf, hps, hs, hd, he, Bool.false_eq_true,
              if_false] at h
            injection h with h1 h2
            subst h1
            simp [emittedOf_cons_forward, emittedOf_cons_sampled,
              emittedOf_cons_emitted, emittedOf_append, emittedOf_nil, hpe]

/-- In a full run, every penalty call carries the configured strength and
the prompt-tail window (and only happens with the penalty enabled). -/
theorem genLoop_penaltyCalls {L Γ S E : Type} {ext : Externals L Γ S E}
    {cfg : GenConfig} {prompt : List Nat} :
    ∀ (fuel : Nat) (st : LoopState Γ S) (evs : List Event)
      (r : Except E (StopReason × LoopState Γ S)),
      genLoop ext cfg prompt fuel st = (evs, r) →
      ∀ s w, Event.penaltyCall s w ∈ evs →
        s = cfg.repeat_penalty ∧ w = penaltyWindow cfg prompt ∧
        cfg.repeat_penalty ≠ 1 := by
  intro fuel
  induction fuel with
  | zero =>
    intro st evs r h s w hmem
    simp [genLoop] at h
    rw [h.1] at hmem
    simp at hmem
  | succ n ih =>
    intro st evs r h s w hmem
    rcases hstep : genStep ext cfg prompt st with ⟨sevs, sr⟩
    cases sr with
    | error e =>
      rw [genLoop_succ_error n hstep] at h
      injection h with h1 h2
      subst h1
      exact genStep_penaltyCalls hstep s w hmem
    | ok nxt =>
      cases nxt with
      | stopEos stE =>
        rw [genLoop_succ_eos n hstep] at h
        injection h with h1 h2
        subst h1
        exact genStep_penaltyCalls hstep s w hmem
      | cont stC =>
        rw [genLoop_succ_cont n hstep] at h
        rcases hrest : genLoop ext cfg prompt n stC with ⟨revs, rr⟩
        rw [hrest] at h
        injection h with h1 h2
        subst h1
        rw [List.mem_append] at hmem
        rcases hmem with hm | hm
        · exact genStep_penaltyCalls hstep s w hm
        · exact ih stC revs rr hrest s w hm

/-- On an eos stop, strictly fewer fragments were emitted than the loop had
iterations available. -/
theorem genLoop_eos_emitted_lt {L Γ S E : Type} {ext : Externals L Γ S E}
    {cfg : GenConfig} {prompt : List Nat} :
    ∀ (fuel : Nat) (st : LoopState Γ S) (evs : List Event)
      (st' : LoopState Γ S),
      genLoop ext cfg prompt fuel st =
        (evs, Except.ok (StopReason.eos, st')) →
      (emittedOf evs).length < fuel := by
  intro fuel
  induction fuel with
  | zero =>
    intro st evs st' h
    simp [genLoop] at h
  | succ n ih =>
    intro st evs st' h
    rcases hstep : genStep ext cfg prompt st with ⟨sevs, sr⟩
    cases sr with
    | error e =>
      rw [genLoop_succ_error n hstep] at h
      simp at h
    | ok nxt =>
      cases nxt with
      | stopEos stE =>
        rw [genLoop_succ_eos n hstep] at h
        injection h with h1 h2
        subst h1
        have hz := (genStep_stopEos_state hstep).2.1
        simp [hz]
      | cont stC =>
        rw [genLoop_succ_cont n hstep] at h
        rcases hrest : genLoop ext cfg prompt n stC with ⟨revs, rr⟩
        rw [hrest] at h
        injection h with h1 h2
        subst h1
        subst h2
        have hlt := ih stC revs st' hrest
        have hle := genStep_emitted_len_le hstep
        rw [emittedOf_append]
        simp only [List.length_append]
        omega

/-- `advance` succeeds exactly on a continuing iteration. -/
theorem advance_eq_some {L Γ S E : Type} {ext : Externals L Γ S E}
    {cfg : GenConfig} {prompt : List Nat} {st st' : LoopState Γ S}
    (h : advance ext cfg prompt st = some st') :
    ∃ evs, genStep ext cfg prompt st =
      (evs, Except.ok (StepNext.cont st')) := by
  unfold advance at h
  rcases hg : genStep ext cfg prompt st with ⟨sevs, sr⟩
  rw [hg] at h
  cases sr with
  | error e => simp at h
  | ok nxt =>
    cases nxt with
    | stopEos stE => simp at h
    | cont stC =>
      simp at h
      subst h
      exact ⟨sevs, rfl⟩

/-- Cursor bookkeeping along completed iterations: the invariant
`pos + (length of the pending chunk) = prompt length + n` holds after `n`
completed iterations, and from the first completed iteration on the pending
chunk is a single token, so `pos = prompt length + (n - 1)`. -/
theorem afterSteps_spec {L Γ S E : Type} (ext : Externals L Γ S E)
    (cfg : GenConfig) (prompt : List Nat) (cache : Γ) (sampler : S) :
    ∀ (n : Nat) (st : LoopState Γ S),
      afterSteps ext cfg prompt cache sampler n = some st →
      st.pos + st.tokens_tensor.length = prompt.length + n ∧
      (n = 0 → st = initState prompt cache sampler) ∧
      (1 ≤ n → st.pos = prompt.length + (n - 1) ∧
        st.tokens_tensor.length = 1) := by
  intro n
  induction n with
  | zero =>
    intro st h
    simp [afterSteps] at h
    subst h
    simp [initState]
  | succ n ih =>
    intro st h
    simp only [afterSteps, Option.bind_eq_some] at h
    obtain ⟨st0, h0, hadv⟩ := h
    obtain ⟨evs, hg⟩ := advance_eq_some hadv
    obtain ⟨t, c, s', hst, _⟩ := genStep_cont_state hg
    obtain ⟨hinv, hzero, hpos⟩ := ih st0 h0
    subst hst
    refine ⟨?_, by omega, fun _ => ⟨?_, by simp [contState]⟩⟩
    · simp [contState]
      omega
    · simp [contState]
      omega

/-- Along completed iterations the cursor never decreases. -/
theorem afterSteps_mono {L Γ S E : Type} (ext : Externals L Γ S E)
    (cfg : GenConfig) (prompt : List Nat) (cache : Γ) (sampler : S)
    (n : Nat) (st st' : LoopState Γ S)
    (h : afterSteps ext cfg prompt cache sampler n = some st)
    (h' : afterSteps ext cfg prompt cache sampler (n + 1) = some st') :
    st.pos ≤ st'.pos := by
  simp only [afterSteps, Option.bind_eq_some] at h'
  obtain ⟨st0, h0, hadv⟩ := h'
  rw [h] at h0
  injection h0 with h0
  subst h0
  obtain ⟨evs, hg⟩ := advance_eq_some hadv
  obtain ⟨t, c, s', hst, _⟩ := genStep_cont_state hg
  subst hst
  simp [contState]

/-- Within one iteration the cursor never decreases, whether the iteration
continues (cursor advanced by the chunk length) or breaks on eos (cursor
unchanged). -/
theorem genStep_pos_mono {L Γ S E : Type} {ext : Externals L Γ S E}
    {cfg : GenConfig} {prompt : List Nat} {st : LoopState Γ S}
    {evs : List Event} {nxt : StepNext Γ S}
    (h : genStep ext cfg prompt st = (evs, Except.ok nxt)) :
    st.pos ≤ nxt.state.pos := by
  cases nxt with
  | cont st' =>
    obtain ⟨t, c, s', hst, _⟩ := genStep_cont_state h
    subst hst
    simp [contState, StepNext.state]
  | stopEos st' =>
    obtain ⟨⟨c, s', hst⟩, _, _⟩ := genStep_stopEos_state h
    subst hst
    simp [eosState, StepNext.state]

/-- The sampled tokens among a list of events, in order. -/
def sampledOf (evs : List Event) : List Nat :=
  evs.filterMap fun e =>
    match e with
    | Event.sampled t => some t
    | _ => none

theorem sampledOf_nil : sampledOf [] = [] := rfl

theorem sampledOf_append (a b : List Event) :
    sampledOf (a ++ b) = sampledOf a ++ sampledOf b := by
  simp [sampledOf]

theorem sampledOf_cons_forward (c : List Nat) (p : Nat) (evs : List Event) :
    sampledOf (Event.forwardCall c p :: evs) = sampledOf evs := rfl

theorem sampledOf_cons_penalty (s : ℚ) (w : List Nat) (evs : List Event) :
    sampledOf (Event.penaltyCall s w :: evs) = sampledOf evs := rfl

theorem sampledOf_cons_sampled (t : Nat) (evs : List Event) :
    sampledOf (Event.sampled t :: evs) = t :: sampledOf evs := rfl

theorem sampledOf_cons_emitted (t : String) (evs : List Event) :
    sampledOf (Event.emitted t :: evs) = sampledOf evs := rfl

theorem sampledOf_penaltyStage {L Γ S E : Type} (ext : Externals L Γ S E)
    (cfg : GenConfig) (prompt : List Nat) (l : L) :
    sampledOf (penaltyStage ext cfg prompt l).1 = [] := by
  rcases penaltyStage_events ext cfg prompt l with h | ⟨_, h⟩ <;>
    simp [h, sampledOf]

/-- A continuing iteration samples exactly one token, and the next input
chunk is exactly that token. -/
theorem genStep_cont_sampled {L Γ S E : Type} {ext : Externals L Γ S E}
    {cfg : GenConfig} {prompt : List Nat} {st st' : LoopState Γ S}
    {evs : List Event}
    (h : genStep ext cfg prompt st =
      (evs, Except.ok (StepNext.cont st'))) :
    ∃ t, sampledOf evs = [t] ∧ st'.tokens_tensor = [t] := by
  cases hf : ext.forward st.tokens_tensor st.pos st.cache with
  | error e => simp [genStep, hf] at h
  | ok p =>
    obtain ⟨l, c⟩ := p
    rcases hps : penaltyStage ext cfg prompt l with ⟨pevs, pr⟩
    have hpe := sampledOf_penaltyStage ext cfg prompt l
    rw [hps] at hpe
    simp only [Prod.fst] at hpe
    cases pr with
    | error e => simp [genStep, hf, hps] at h
    | ok l' =>
      cases hs : ext.sample l' st.sampler with
      | error e => simp [genStep, hf, hps, hs] at h
      | ok q =>
        obtain ⟨t, s'⟩ := q
        cases hd : ext.decode t with
        | none =>
          simp only [genStep, hf, hps, hs, hd, Prod.mk.injEq,
            Except.ok.injEq, StepNext.cont.injEq] at h
          refine ⟨t, ?_, by rw [← h.2]⟩
          rw [← h.1]
          simp [sampledOf_cons_forward, sampledOf_append,
            sampledOf_cons_sampled, sampledOf_nil, hpe]
        | some text =>
          by_cases he : isEosText text = true
          · simp [genStep, hf, hps, hs, hd, he] at h
          · simp only [genStep, hf, hps, hs, hd, he, Bool.false_eq_true,
              if_false, Prod.mk.injEq, Except.ok.injEq,
              StepNext.cont.injEq] at h
            refine ⟨t, ?_, by rw [← h.2]⟩
            rw [← h.1]
            simp [sampledOf_cons_forward, sampledOf_append,
              sampledOf_cons_sampled, sampledOf_cons_emitted,
              sampledOf_nil, hpe]

/-- The first event of every iteration is the forward call, fed exactly the
pending input chunk at the current cursor. -/
theorem genStep_events_head {L Γ S E : Type} (ext : Externals L Γ S E)
    (cfg : GenConfig) (prompt : List Nat) (st : LoopState Γ S) :
    (genStep ext cfg prompt st).1.head? =
      some (Event.forwardCall st.tokens_tensor st.pos) := by
  rcases genStep_spec ext cfg prompt st with
    ⟨e, _, heq⟩ |
    ⟨l, c, pevs, pr, _, _,
      ⟨e, _, heq⟩ |
      ⟨l', _, ⟨e, _, heq⟩ |
        ⟨t, s', _, ⟨_, heq⟩ | ⟨text, _, _, heq⟩ | ⟨text, _, _, heq⟩⟩⟩⟩ <;>
    rw [heq] <;> rfl

/-- Concrete collaborators for exercising the loop: trivial logits (`Unit`)
and cache (`Unit`), a step counter as sampler state, errors `Unit`.  The
sampler returns token 7 on the first two calls and token 2 on the third;
the decoder maps token 2 to the eos marker and every other token to `"a"`.
This realises the stub pipeline of the specification example. -/
def stubExt : Externals Unit Unit Nat Unit where
  forward _ _ _ := Except.ok ((), ())
  applyRepeatPenalty l _ _ := Except.ok l
  sample _ n := Except.ok (if n == 2 then 2 else 7, n + 1)
  decode t := if t == 2 then some "</s>" else some "a"

/-- A generation config with the repository defaults except that the repeat
penalty is disabled (`1.0`) and only three tokens are generated. -/
def stubCfg : GenConfig :=
  { num_tokens := 3, temperature := 4/5, top_p := none, top_k := none,
    seed := 299792458, repeat_penalty := 1, repeat_last_n := 128 }

/-- `stubCfg` with the repeat penalty enabled (strength 2). -/
def stubCfgPen : GenConfig := { stubCfg with repeat_penalty := 2 }

/-- Collaborators whose forward pass fails at cursor 3 (the third step of a
two-token prompt) and otherwise sample token 7 decoding to `"a"`. -/
def stubErrExt : Externals Unit Unit Nat Unit where
  forward _ pos _ := if pos == 3 then Except.error () else Except.ok ((), ())
  applyRepeatPenalty l _ _ := Except.ok l
  sample _ n := Except.ok (7, n + 1)
  decode _ := some "a"

/-- Collaborators whose token decoding always fails (`tokenizer.decode`
returns an error, which `.ok()` turns into `None`). -/
def stubDecodeFailExt : Externals Unit Unit Nat Unit where
  forward _ _ _ := Except.ok ((), ())
  applyRepeatPenalty l _ _ := Except.ok l
  sample _ n := Except.ok (7, n + 1)
  decode _ := none

/-- The `LogitsProcessor` constructor of the stub pipeline: the sampler
state is a call counter starting at 0, whatever the seed and strategy. -/
def stubFromSampling : Nat → Sampling → Nat := fun _ _ => 0

/-- C1: on every generation step the repeat-penalty adjustment is applied
iff `repeat_penalty ≠ 1.0`; whenever it is applied — on the first step and
on every later one — its context window is the trailing
`min(prompt length, repeat_last_n)` tokens of the original prompt: length
at most `repeat_last_n`, a suffix of the prompt, hence never containing a
generated token. -/
theorem C1_repeat_penalty_window {L Γ S E : Type} (ext : Externals L Γ S E)
    (cfg : GenConfig) (prompt : List Nat) :
    (cfg.repeat_penalty = 1 →
      ∀ (st : LoopState Γ S) (s : ℚ) (w : List Nat),
        Event.penaltyCall s w ∉ (genStep ext cfg prompt st).1) ∧
    (cfg.repeat_penalty ≠ 1 →
      ∀ (st : LoopState Γ S) (l : L) (c : Γ),
        ext.forward st.tokens_tensor st.pos st.cache = Except.ok (l, c) →
        Event.penaltyCall cfg.repeat_penalty (penaltyWindow cfg prompt) ∈
          (genStep ext cfg prompt st).1) ∧
    (∀ (fuel : Nat) (st : LoopState Γ S) (evs : List Event)
        (r : Except E (StopReason × LoopState Γ S)),
      genLoop ext cfg prompt fuel st = (evs, r) →
      ∀ s w, Event.penaltyCall s w ∈ evs →
        s = cfg.repeat_penalty ∧ w = penaltyWindow cfg prompt) ∧
    penaltyWindow cfg prompt =
      prompt.drop (prompt.length - cfg.repeat_last_n) ∧
    (penaltyWindow cfg prompt).length = min prompt.length cfg.repeat_last_n ∧
    (penaltyWindow cfg prompt).length ≤ cfg.repeat_last_n ∧
    penaltyWindow cfg prompt <:+ prompt := by
  refine ⟨?_, ?_, ?_, rfl, penaltyWindow_length cfg prompt, ?_,
    penaltyWindow_suffix cfg prompt⟩
  · intro h1 st s w hmem
    rcases hg : genStep ext cfg prompt st with ⟨evs, r⟩
    rw [hg] at hmem
    exact (genStep_penaltyCalls hg s w hmem).2.2 h1
  · intro hne st l c hf
    exact genStep_penalty_called hne l c hf
  · intro fuel st evs r h s w hm
    obtain ⟨h1, h2, _⟩ := genLoop_penaltyCalls fuel st evs r h s w hm
    exact ⟨h1, h2⟩
  · rw [penaltyWindow_length]
    exact min_le_right _ _

/-- Witness for C1 at the stub pipeline with penalty strength 2 and prompt
`[5, 9]`: the penalty is called with the full prompt as window (since
`repeat_last_n = 128 ≥ 2`), and the window length is within bounds. -/
theorem C1_repeat_penalty_window_witness :
    Event.penaltyCall (2 : ℚ) [5, 9] ∈
      (genStep stubExt stubCfgPen [5, 9] (initState [5, 9] () 0)).1 ∧
    (penaltyWindow stubCfgPen [5, 9]).length ≤ 128 := by
  have h := C1_repeat_penalty_window stubExt stubCfgPen [5, 9]
  constructor
  · have hmem := h.2.1 (by decide) (initState [5, 9] () 0) () () rfl
    simpa [penaltyWindow, stubCfgPen, stubCfg] using hmem
  · exact h.2.2.2.2.2.1

/-- C2 counterexample: in the specification's stub example (prompt `[5, 9]`,
`max_tokens = 3`, sampler yielding 7, 7, then the eos-mapped token 2), the
decode cursor `pos` ends the run at 3 and there is no third completed
iteration — the eos `break` at line 270 precedes the `pos` update at line
277, so the cursor never takes the value 4 claimed by the spec. -/
theorem C2_cursor_counterexample :
    (genLoop stubExt stubCfg [5, 9] 3 (initState [5, 9] () 0)).2 =
      Except.ok (StopReason.eos,
        { tokens_tensor := [7], cache := (), sampler := 3, pos := 3,
          generated_tokens := 3 }) ∧
    afterSteps stubExt stubCfg [5, 9] () 0 3 = none ∧
    (3 : Nat) ≠ 4 :=
  ⟨rfl, rfl, by decide⟩

/-- C2 (amended): with prompt `[5, 9]`, `max_tokens = 3` and the stub
pipeline sampling 7, 7 and then the eos-mapped token 2, the loop emits
exactly two text fragments (for the two 7 tokens) and stops with reason
eos; the decode cursor takes the values 2 and then 3 after the first two
steps and remains 3 at the eos stop, because the break precedes the cursor
update — it never reaches 4. -/
theorem C2_stub_run :
    genLoop stubExt stubCfg [5, 9] 3 (initState [5, 9] () 0) =
      ([Event.forwardCall [5, 9] 0, Event.sampled 7, Event.emitted "a",
        Event.forwardCall [7] 2, Event.sampled 7, Event.emitted "a",
        Event.forwardCall [7] 3, Event.sampled 2],
       Except.ok (StopReason.eos,
         { tokens_tensor := [7], cache := (), sampler := 3, pos := 3,
           generated_tokens := 3 })) ∧
    emittedOf
        (genLoop stubExt stubCfg [5, 9] 3 (initState [5, 9] () 0)).1 =
      ["a", "a"] ∧
    (emittedOf
        (genLoop stubExt stubCfg [5, 9] 3 (initState [5, 9] () 0)).1).length
      = 2 ∧
    (afterSteps stubExt stubCfg [5, 9] () 0 1).map LoopState.pos =
      some 2 ∧
    (afterSteps stubExt stubCfg [5, 9] () 0 2).map LoopState.pos =
      some 3 :=
  ⟨rfl, rfl, rfl, rfl, rfl⟩

/-- C3: the decode cursor starts at 0; after the first completed iteration
it equals the prompt length (it advanced by the full prompt); after every
further completed iteration it advanced by exactly 1; hence after N ≥ 1
completed iterations it equals `prompt length + (N − 1)`; and it is
monotonically non-decreasing, both across completed iterations and within
any iteration (including an eos break, which leaves it unchanged). -/
theorem C3_cursor_progression {L Γ S E : Type} (ext : Externals L Γ S E)
    (cfg : GenConfig) (prompt : List Nat) (cache : Γ) (sampler : S) :
    (afterSteps ext cfg prompt cache sampler 0 =
        some (initState prompt cache sampler) ∧
      (initState prompt cache sampler : LoopState Γ S).pos = 0) ∧
    (∀ (N : Nat) (st : LoopState Γ S), 1 ≤ N →
      afterSteps ext cfg prompt cache sampler N = some st →
      st.pos = prompt.length + (N - 1)) ∧
    (∀ st : LoopState Γ S,
      afterSteps ext cfg prompt cache sampler 1 = some st →
      st.pos = 0 + prompt.length) ∧
    (∀ (N : Nat) (st st' : LoopState Γ S), 1 ≤ N →
      afterSteps ext cfg prompt cache sampler N = some st →
      afterSteps ext cfg prompt cache sampler (N + 1) = some st' →
      st'.pos = st.pos + 1) ∧
    (∀ (N : Nat) (st st' : LoopState Γ S),
      afterSteps ext cfg prompt cache sampler N = some st →
      afterSteps ext cfg prompt cache sampler (N + 1) = some st' →
      st.pos ≤ st'.pos) ∧
    (∀ (st : LoopState Γ S) (evs : List Event) (nxt : StepNext Γ S),
      genStep ext cfg prompt st = (evs, Except.ok nxt) →
      st.pos ≤ nxt.state.pos) := by
  refine ⟨⟨rfl, rfl⟩, ?_, ?_, ?_, ?_, ?_⟩
  · intro N st hN h
    exact ((afterSteps_spec ext cfg prompt cache sampler N st h).2.2 hN).1
  · intro st h
    have := ((afterSteps_spec ext cfg prompt cache sampler 1 st h).2.2
      le_rfl).1
    omega
  · intro N st st' hN h h'
    have h1 := (afterSteps_spec ext cfg prompt cache sampler N st h).2.2 hN
    have h2 := (afterSteps_spec ext cfg prompt cache sampler (N + 1) st'
      h').2.2 (by omega)
    omega
  · intro N st st' h h'
    exact afterSteps_mono ext cfg prompt cache sampler N st st' h h'
  · intro st evs nxt h
    exact genStep_pos_mono h

/-- Witness for C3 at the stub pipeline: after 2 completed iterations on
the two-token prompt `[5, 9]` the cursor is `2 + (2 − 1) = 3`. -/
theorem C3_cursor_progression_witness :
    afterSteps stubExt stubCfg [5, 9] () 0 2 =
      some { tokens_tensor := [7], cache := (), sampler := 2, pos := 3,
             generated_tokens := 2 } ∧
    ({ tokens_tensor := [7], cache := (), sampler := 2, pos := 3,
       generated_tokens := 2 } : LoopState Unit Nat).pos =
      ([5, 9] : List Nat).length + (2 - 1) :=
  ⟨rfl,
    (C3_cursor_progression stubExt stubCfg [5, 9] () 0).2.1 2
      { tokens_tensor := [7], cache := (), sampler := 2, pos := 3,
        generated_tokens := 2 } (by decide) rfl⟩

/-- C4: an iteration whose sampled token decodes to text equal to or
containing the eos marker breaks out of the loop with reason eos and emits
nothing; an iteration whose sampled token decodes to non-eos text emits
exactly that fragment and continues; consequently an eos stop always
leaves strictly fewer emitted fragments than `max_tokens`. -/
theorem C4_eos_stop_semantics {L Γ S E : Type} (ext : Externals L Γ S E)
    (cfg : GenConfig) (prompt : List Nat) :
    (∀ (st st' : LoopState Γ S) (evs : List Event),
      genStep ext cfg prompt st =
        (evs, Except.ok (StepNext.stopEos st')) →
      emittedOf evs = [] ∧
      ∃ t text, Event.sampled t ∈ evs ∧ ext.decode t = some text ∧
        isEosText text = true) ∧
    (∀ (st : LoopState Γ S) (l l' : L) (c : Γ) (pevs : List Event)
        (t : Nat) (s' : S) (text : String),
      ext.forward st.tokens_tensor st.pos st.cache = Except.ok (l, c) →
      penaltyStage ext cfg prompt l = (pevs, Except.ok l') →
      ext.sample l' st.sampler = Except.ok (t, s') →
      ext.decode t = some text →
      (isEosText text = true →
        genStep ext cfg prompt st =
          (Event.forwardCall st.tokens_tensor st.pos :: pevs ++
             [Event.sampled t],
           Except.ok (StepNext.stopEos (eosState st c s')))) ∧
      (isEosText text = false →
        genStep ext cfg prompt st =
          ((Event.forwardCall st.tokens_tensor st.pos :: pevs ++
              [Event.sampled t]) ++ [Event.emitted text],
           Except.ok (StepNext.cont (contState st t c s'))))) ∧
    (∀ (fuel : Nat) (st st' : LoopState Γ S) (evs : List Event),
      genLoop ext cfg prompt fuel st =
        (evs, Except.ok (StopReason.eos, st')) →
      (emittedOf evs).length < fuel) ∧
    (∀ (fromSampling : Nat → Sampling → S) (cache : Γ)
        (st' : LoopState Γ S) (evs : List Event),
      runGeneration ext fromSampling cfg prompt cache =
        (evs, Except.ok (StopReason.eos, st')) →
      (emittedOf evs).length < cfg.num_tokens) := by
  refine ⟨?_, ?_, ?_, ?_⟩
  · intro st st' evs h
    obtain ⟨_, hz, t, text, hmem, hd, he⟩ := genStep_stopEos_state h
    exact ⟨hz, t, text, hmem, hd, he⟩
  · intro st l l' c pevs t s' text hf hps hs hd
    constructor
    · intro he
      simp [genStep, hf, hps, hs, hd, he, eosState]
    · intro he
      simp [genStep, hf, hps, hs, hd, he, contState]
  · intro fuel st st' evs h
    exact genLoop_eos_emitted_lt fuel st evs st' h
  · intro fromSampling cache st' evs h
    exact genLoop_eos_emitted_lt cfg.num_tokens _ evs st' h

/-- Witness for C4 at the stub pipeline: the example run stops on eos
having emitted 2 fragments, strictly fewer than `max_tokens = 3`. -/
theorem C4_eos_stop_semantics_witness :
    (emittedOf
        [Event.forwardCall [5, 9] 0, Event.sampled 7, Event.emitted "a",
         Event.forwardCall [7] 2, Event.sampled 7, Event.emitted "a",
         Event.forwardCall [7] 3, Event.sampled 2]).length < 3 :=
  (C4_eos_stop_semantics stubExt stubCfg [5, 9]).2.2.1 3
    (initState [5, 9] () 0)
    { tokens_tensor := [7], cache := (), sampler := 3, pos := 3,
      generated_tokens := 3 }
    [Event.forwardCall [5, 9] 0, Event.sampled 7, Event.emitted "a",
     Event.forwardCall [7] 2, Event.sampled 7, Event.emitted "a",
     Event.forwardCall [7] 3, Event.sampled 2]
    rfl

/-- C5 counterexample: with collaborators whose token decoding fails on
every step, a two-iteration run completes normally (`maxTokens`), emitting
nothing and propagating no error — a decode failure is NOT fatal and does
not abort generation, contradicting the claim's blanket statement. -/
theorem C5_decode_failure_not_fatal :
    genLoop stubDecodeFailExt stubCfg [5, 9] 2 (initState [5, 9] () 0) =
      ([Event.forwardCall [5, 9] 0, Event.sampled 7,
        Event.forwardCall [7] 2, Event.sampled 7],
       Except.ok (StopReason.maxTokens,
         { tokens_tensor := [7], cache := (), sampler := 2, pos := 3,
           generated_tokens := 2 })) ∧
    (genLoop stubDecodeFailExt stubCfg [5, 9] 2
        (initState [5, 9] () 0)).2 ≠ Except.error () :=
  ⟨rfl, fun hcon => Except.noConfusion hcon⟩

/-- C5 (amended): a forward-pass failure and a sampling failure are fatal:
the run aborts at once with that error, no further iteration runs, no
retry happens, and the events (in particular the fragments) already
produced by earlier iterations remain in the output; a token-decode
failure, by contrast, is not an error path at all — it is silently
skipped and the loop continues (see C10). -/
theorem C5_failures_fatal {L Γ S E : Type} (ext : Externals L Γ S E)
    (cfg : GenConfig) (prompt : List Nat) :
    (∀ (st : LoopState Γ S) (e : E),
      ext.forward st.tokens_tensor st.pos st.cache = Except.error e →
      ∀ fuel, genLoop ext cfg prompt (fuel + 1) st =
        ([Event.forwardCall st.tokens_tensor st.pos], Except.error e)) ∧
    (∀ (st : LoopState Γ S) (l l' : L) (c : Γ) (pevs : List Event) (e : E),
      ext.forward st.tokens_tensor st.pos st.cache = Except.ok (l, c) →
      penaltyStage ext cfg prompt l = (pevs, Except.ok l') →
      ext.sample l' st.sampler = Except.error e →
      ∀ fuel, genLoop ext cfg prompt (fuel + 1) st =
        (Event.forwardCall st.tokens_tensor st.pos :: pevs,
         Except.error e)) ∧
    (∀ (st : LoopState Γ S) (evs : List Event) (e : E) (fuel : Nat),
      genStep ext cfg prompt st = (evs, Except.error e) →
      genLoop ext cfg prompt (fuel + 1) st = (evs, Except.error e)) ∧
    (∀ (st st' : LoopState Γ S) (evs : List Event) (fuel : Nat),
      genStep ext cfg prompt st = (evs, Except.ok (StepNext.cont st')) →
      genLoop ext cfg prompt (fuel + 1) st =
        (evs ++ (genLoop ext cfg prompt fuel st').1,
         (genLoop ext cfg prompt fuel st').2)) := by
  refine ⟨?_, ?_, ?_, ?_⟩
  · intro st e hf fuel
    exact genLoop_succ_error fuel (genStep_forward_error ext cfg prompt st e hf)
  · intro st l l' c pevs e hf hps hs fuel
    exact genLoop_succ_error fuel
      (genStep_sample_error ext cfg prompt st l l' c pevs e hf hps hs)
  · intro st evs e fuel h
    exact genLoop_succ_error fuel h
  · intro st st' evs fuel h
    exact genLoop_succ_cont fuel h

/-- Witness for C5 (amended) at the error stub: at cursor 3 the forward
pass fails, and a run started there aborts immediately with the error and
only the forward-call event. -/
theorem C5_failures_fatal_witness :
    genLoop stubErrExt stubCfg [5, 9] 1
      { tokens_tensor := [7], cache := (), sampler := 2, pos := 3,
        generated_tokens := 2 } =
      ([Event.forwardCall [7] 3], Except.error ()) :=
  (C5_failures_fatal stubErrExt stubCfg [5, 9]).1
    { tokens_tensor := [7], cache := (), sampler := 2, pos := 3,
      generated_tokens := 2 } () rfl 0

/-- C6: generation is deterministic — equal collaborators, sampler
constructor, config, prompt and cache give identical runs; moreover the
sampler state entering any iteration is exactly the state left by the
previous iteration's single `sample` call (the PRNG is threaded across
steps, never rebuilt from the seed), and the `LogitsProcessor` is
constructed from the seed exactly once, before the loop. -/
theorem C6_determinism_no_reseed {L Γ S E : Type} :
    (∀ (e₁ e₂ : Externals L Γ S E) (f₁ f₂ : Nat → Sampling → S)
        (c₁ c₂ : GenConfig) (p₁ p₂ : List Nat) (k₁ k₂ : Γ),
      e₁ = e₂ → f₁ = f₂ → c₁ = c₂ → p₁ = p₂ → k₁ = k₂ →
      runGeneration e₁ f₁ c₁ p₁ k₁ = runGeneration e₂ f₂ c₂ p₂ k₂) ∧
    (∀ (ext : Externals L Γ S E) (cfg : GenConfig) (prompt : List Nat)
        (st : LoopState Γ S) (evs : List Event) (nxt : StepNext Γ S),
      genStep ext cfg prompt st = (evs, Except.ok nxt) →
      ∃ l t, ext.sample l st.sampler =
        Except.ok (t, (StepNext.state nxt).sampler)) ∧
    (∀ (ext : Externals L Γ S E) (f : Nat → Sampling → S)
        (cfg : GenConfig) (prompt : List Nat) (k : Γ),
      runGeneration ext f cfg prompt k =
        genLoop ext cfg prompt cfg.num_tokens
          (initState prompt k (f cfg.seed (chooseSampling cfg)))) := by
  refine ⟨?_, ?_, fun _ _ _ _ _ => rfl⟩
  · intro e₁ e₂ f₁ f₂ c₁ c₂ p₁ p₂ k₁ k₂ he hf hc hp hk
    subst he; subst hf; subst hc; subst hp; subst hk
    rfl
  · intro ext cfg prompt st evs nxt h
    cases nxt with
    | cont st' =>
      cases hf : ext.forward st.tokens_tensor st.pos st.cache with
      | error e => simp [genStep, hf] at h
      | ok p =>
        obtain ⟨l, c⟩ := p
        rcases hps : penaltyStage ext cfg prompt l with ⟨pevs, pr⟩
        cases pr with
        | error e => simp [genStep, hf, hps] at h
        | ok l' =>
          cases hs : ext.sample l' st.sampler with
          | error e => simp [genStep, hf, hps, hs] at h
          | ok q =>
            obtain ⟨t, s'⟩ := q
            cases hd : ext.decode t with
            | none =>
              simp only [genStep, hf, hps, hs, hd, Prod.mk.injEq,
                Except.ok.injEq, StepNext.cont.injEq] at h
              exact ⟨l', t, by rw [← h.2, hs]; rfl⟩
            | some text =>
              by_cases he : isEosText text = true
              · simp [genStep, hf, hps, hs, hd, he] at h
              · simp only [genStep, hf, hps, hs, hd, he,
                  Bool.false_eq_true, if_false, Prod.mk.injEq,
                  Except.ok.injEq, StepNext.cont.injEq] at h
                exact ⟨l', t, by rw [← h.2, hs]; rfl⟩
    | stopEos st' =>
      obtain ⟨⟨c, s', hst⟩, _, _⟩ := genStep_stopEos_state h
      subst hst
      cases hf : ext.forward st.tokens_tensor st.pos st.cache with
      | error e => simp [genStep, hf] at h
      | ok p =>
        obtain ⟨l, c₀⟩ := p
        rcases hps : penaltyStage ext cfg prompt l with ⟨pevs, pr⟩
        cases pr with
        | error e => simp [genStep, hf, hps] at h
        | ok l' =>
          cases hs : ext.sample l' st.sampler with
          | error e => simp [genStep, hf, hps, hs] at h
          | ok q =>
            obtain ⟨t, s₀⟩ := q
            cases hd : ext.decode t with
            | none => simp [genStep, hf, hps, hs, hd, eosState] at h
            | some text =>
              by_cases he : isEosText text = true
              · simp only [genStep, hf, hps, hs, hd, he, if_pos,
                  Prod.mk.injEq, Except.ok.injEq,
                  StepNext.stopEos.injEq] at h
                exact ⟨l', t, by
                  rw [hs]
                  have := congrArg LoopState.sampler h.2
                  simp [eosState] at this
                  simp [StepNext.state, eosState, this]⟩
              · simp [genStep, hf, hps, hs, hd, he, eosState] at h

/-- Witness for C6 at the stub pipeline: two runs with equal inputs are
equal. -/
theorem C6_determinism_no_reseed_witness :
    runGeneration stubExt stubFromSampling stubCfg [5, 9] () =
      runGeneration stubExt stubFromSampling stubCfg [5, 9] () :=
  (C6_determinism_no_reseed).1 stubExt stubExt stubFromSampling
    stubFromSampling stubCfg stubCfg [5, 9] [5, 9] () () rfl rfl rfl rfl rfl

/-- C7: with `max_tokens = 0` the loop body never runs: no events (in
particular no forward call and no fragment) and an immediate stop with
reason max-tokens in the initial state. -/
theorem C7_zero_max_tokens {L Γ S E : Type} (ext : Externals L Γ S E)
    (fromSampling : Nat → Sampling → S) (cfg : GenConfig)
    (prompt : List Nat) (cache : Γ) (h : cfg.num_tokens = 0) :
    runGeneration ext fromSampling cfg prompt cache =
      ([], Except.ok (StopReason.maxTokens,
        initState prompt cache
          (fromSampling cfg.seed (chooseSampling cfg)))) ∧
    emittedOf (runGeneration ext fromSampling cfg prompt cache).1 = [] := by
  have heq : runGeneration ext fromSampling cfg prompt cache =
      ([], Except.ok (StopReason.maxTokens,
        initState prompt cache
          (fromSampling cfg.seed (chooseSampling cfg)))) := by
    simp [runGeneration, h, genLoop]
  exact ⟨heq, by rw [heq]; rfl⟩

/-- Witness for C7: the stub config with `num_tokens := 0` runs zero
iterations. -/
theorem C7_zero_max_tokens_witness :
    runGeneration stubExt stubFromSampling
      { stubCfg with num_tokens := 0 } [5, 9] () =
      ([], Except.ok (StopReason.maxTokens,
        initState [5, 9] ()
          (stubFromSampling
            ({ stubCfg with num_tokens := 0 } : GenConfig).seed
            (chooseSampling { stubCfg with num_tokens := 0 })))) ∧
    emittedOf (runGeneration stubExt stubFromSampling
        { stubCfg with num_tokens := 0 } [5, 9] ()).1 = [] :=
  C7_zero_max_tokens stubExt stubFromSampling
    { stubCfg with num_tokens := 0 } [5, 9] () rfl

/-- C8: the input chunk fed to the model is the full prompt before the
first iteration; every iteration's forward call is fed exactly the pending
chunk at the current cursor; a completed iteration makes the next chunk
exactly the single token it sampled; hence after any completed iteration
the pending chunk has length 1 — the full history is never re-fed. -/
theorem C8_input_chunk_contract {L Γ S E : Type} (ext : Externals L Γ S E)
    (cfg : GenConfig) (prompt : List Nat) (cache : Γ) (sampler : S) :
    (initState prompt cache sampler : LoopState Γ S).tokens_tensor =
      prompt ∧
    (∀ st : LoopState Γ S,
      (genStep ext cfg prompt st).1.head? =
        some (Event.forwardCall st.tokens_tensor st.pos)) ∧
    (∀ (st st' : LoopState Γ S) (evs : List Event),
      genStep ext cfg prompt st =
        (evs, Except.ok (StepNext.cont st')) →
      ∃ t, sampledOf evs = [t] ∧ st'.tokens_tensor = [t]) ∧
    (∀ (n : Nat) (st : LoopState Γ S), 1 ≤ n →
      afterSteps ext cfg prompt cache sampler n = some st →
      st.tokens_tensor.length = 1) := by
  refine ⟨rfl, ?_, ?_, ?_⟩
  · intro st
    exact genStep_events_head ext cfg prompt st
  · intro st st' evs h
    exact genStep_cont_sampled h
  · intro n st hn h
    exact ((afterSteps_spec ext cfg prompt cache sampler n st h).2.2 hn).2

/-- Witness for C8 at the stub pipeline: the first iteration's completed
state pends exactly the sampled token 7. -/
theorem C8_input_chunk_contract_witness :
    ∃ t, sampledOf [Event.forwardCall [5, 9] 0, Event.sampled 7,
        Event.emitted "a"] = [t] ∧
      ({ tokens_tensor := [7], cache := (), sampler := 1, pos := 2,
         generated_tokens := 1 } : LoopState Unit Nat).tokens_tensor =
        [t] :=
  (C8_input_chunk_contract stubExt stubCfg [5, 9] () 0).2.2.1
    (initState [5, 9] () 0)
    { tokens_tensor := [7], cache := (), sampler := 1, pos := 2,
      generated_tokens := 1 }
    [Event.forwardCall [5, 9] 0, Event.sampled 7, Event.emitted "a"]
    rfl

/-- C9: with `temperature ≤ 0` the sampler is constructed as pure arg-max,
whatever `top_k` and `top_p` are; with `temperature > 0` the pair
`(top_k, top_p)` selects All / TopK / TopP / TopKThenTopP. -/
theorem C9_sampling_selection (cfg : GenConfig) :
    (cfg.temperature ≤ 0 → chooseSampling cfg = Sampling.ArgMax) ∧
    (0 < cfg.temperature →
      (cfg.top_k = none → cfg.top_p = none →
        chooseSampling cfg = Sampling.All cfg.temperature) ∧
      (∀ k, cfg.top_k = some k → cfg.top_p = none →
        chooseSampling cfg = Sampling.TopK k cfg.temperature) ∧
      (∀ p, cfg.top_k = none → cfg.top_p = some p →
        chooseSampling cfg = Sampling.TopP p cfg.temperature) ∧
      (∀ k p, cfg.top_k = some k → cfg.top_p = some p →
        chooseSampling cfg = Sampling.TopKThenTopP k p cfg.temperature)) := by
  constructor
  · intro h
    simp [chooseSampling, h]
  · intro h
    have hn : ¬cfg.temperature ≤ 0 := not_le.mpr h
    refine ⟨?_, ?_, ?_, ?_⟩
    · intro hk hp
      simp [chooseSampling, hn, hk, hp]
    · intro k hk hp
      simp [chooseSampling, hn, hk, hp]
    · intro p hk hp
      simp [chooseSampling, hn, hk, hp]
    · intro k p hk hp
      simp [chooseSampling, hn, hk, hp]

/-- `stubCfg` with zero temperature and both `top_k` and `top_p` set. -/
def stubCfgArgMax : GenConfig :=
  { stubCfg with temperature := 0, top_k := some 5, top_p := some (1/2) }

/-- Witness for C9: zero temperature with both `top_k` and `top_p` supplied
still yields arg-max. -/
theorem C9_sampling_selection_witness :
    chooseSampling stubCfgArgMax = Sampling.ArgMax :=
  (C9_sampling_selection stubCfgArgMax).1
    (by norm_num [stubCfgArgMax, stubCfg])

/-- C10: when the tokenizer fails to decode the sampled token, the
iteration completes silently: no fragment is emitted, no error is raised,
no stop occurs; the cursor advances by the chunk just fed and the
undecodable token becomes the next input chunk. -/
theorem C10_decode_failure_skipped {L Γ S E : Type}
    (ext : Externals L Γ S E) (cfg : GenConfig) (prompt : List Nat)
    (st : LoopState Γ S) (l l' : L) (c : Γ) (pevs : List Event) (t : Nat)
    (s' : S)
    (hf : ext.forward st.tokens_tensor st.pos st.cache = Except.ok (l, c))
    (hps : penaltyStage ext cfg prompt l = (pevs, Except.ok l'))
    (hs : ext.sample l' st.sampler = Except.ok (t, s'))
    (hd : ext.decode t = none) :
    genStep ext cfg prompt st =
      (Event.forwardCall st.tokens_tensor st.pos :: pevs ++
         [Event.sampled t],
       Except.ok (StepNext.cont (contState st t c s'))) ∧
    emittedOf (Event.forwardCall st.tokens_tensor st.pos :: pevs ++
      [Event.sampled t]) = [] ∧
    (contState st t c s').pos = st.pos + st.tokens_tensor.length ∧
    (contState st t c s').tokens_tensor = [t] := by
  have hpe := emittedOf_penaltyStage ext cfg prompt l
  rw [hps] at hpe
  simp only [Prod.fst] at hpe
  refine ⟨by simp [genStep, hf, hps, hs, hd, contState], ?_, rfl, rfl⟩
  simp [emittedOf_cons_forward, emittedOf_append, emittedOf_cons_sampled,
    emittedOf_nil, hpe]

/-- Witness for C10 at the decode-failing stub: the first iteration
completes with no fragment, cursor 2, next chunk `[7]`. -/
theorem C10_decode_failure_skipped_witness :
    genStep stubDecodeFailExt stubCfg [5, 9] (initState [5, 9] () 0) =
      (Event.forwardCall [5, 9] 0 :: [] ++ [Event.sampled 7],
       Except.ok (StepNext.cont
         (contState (initState [5, 9] () 0) 7 () 1))) ∧
    emittedOf (Event.forwardCall [5, 9] 0 :: [] ++ [Event.sampled 7]) =
      [] ∧
    (contState (initState [5, 9] () 0) 7 () 1).pos =
      (initState [5, 9] () 0 : LoopState Unit Nat).pos +
        (initState [5, 9] () 0 : LoopState Unit Nat).tokens_tensor.length ∧
    (contState (initState [5, 9] () 0) 7 () 1).tokens_tensor = [7] :=
  C10_decode_failure_skipped stubDecodeFailExt stubCfg [5, 9]
    (initState [5, 9] () 0) () () () [] 7 1 rfl
    (penaltyStage_of_eq_one stubDecodeFailExt [5, 9] () rfl) rfl rfl
